import Mathlib

/-!
Shallow embedding of the categorization + digest-synthesis pipeline of the
`keep-up-daily` scraper (files `src/scraper/categorizer.py`,
`src/scraper/curator.py`, `src/scraper/sources/base.py`).

Python strings are modelled as `List Char` (or `String`) and Python `int`
as `Int`.  The external pieces (environment, HTTP response, `json.loads`)
are passed in as explicit parameters, so every function is total and
deterministic.  The repository's `config.py` module is not part of the
sources; values it supplies (`AI_CONFIG["enabled"]`,
`AI_CONFIG["fallback_per_cat"]`, the taxonomy `CATEGORIES` and
`DEFAULT_CATEGORY`) are taken as parameters of the embedded functions.
-/

namespace KeepUp

/-- ASCII whitespace recognised by Python's `str.strip` / `\s` (the
Unicode additions are irrelevant for the properties proved here). -/
def isSpace (c : Char) : Bool :=
  c == ' ' || c == '\t' || c == '\n' || c == '\r' || c == '\x0b' || c == '\x0c'

/-- Drop the longest suffix whose characters satisfy `p`. -/
def dropWhileRight (p : Char → Bool) (l : List Char) : List Char :=
  (l.reverse.dropWhile p).reverse

/-- Python `str.strip()` on a character list. -/
def pyStrip (l : List Char) : List Char :=
  dropWhileRight isSpace (l.dropWhile isSpace)

/-- Python `str.strip()` on a `String`. -/
def pyStripS (s : String) : String :=
  ⟨pyStrip s.data⟩

/-- Python `str.lower()` (ASCII-level model). -/
def pyLower (l : List Char) : List Char :=
  l.map Char.toLower

/-- The normalised `Article` dataclass of `src/scraper/sources/base.py`. -/
structure Article where
  title : String
  url : String
  source : String
  description : String := ""
  author : String := ""
  tags : List String := []
  category : String := "general"
  score : Int := 0
  comments_count : Int := 0
  reading_time_min : Int := 0
  published_at : String := ""
  fetched_at : String := ""
  language : String := "en"
deriving DecidableEq, Inhabited

/-! ### Categorizer (`src/scraper/categorizer.py`) -/

/-- A taxonomy entry: category key together with its keyword list (the
`CATEGORIES` mapping of the absent `config.py`, in insertion order). -/
abbrev Taxonomy := List (String × List String)

/-- Embeds `_build_text`: `" ".join([title, description, " ".join(tags)]).lower()`. -/
def _build_text (a : Article) : List Char :=
  pyLower (String.intercalate " " [a.title, a.description, String.intercalate " " a.tags]).data

/-- A regex `\w` word character (ASCII model: alphanumeric or underscore). -/
def isWordChar (c : Char) : Bool :=
  c.isAlphanum || c == '_'

/-- Does regex `\b` hold at offset `i` of `text`?  True exactly when one
side of the position is a word character and the other is not (positions
outside the text count as non-word). -/
def boundaryAt (text : List Char) (i : Nat) : Bool :=
  let left := if i == 0 then false else isWordChar (text.getD (i - 1) ' ')
  let right := isWordChar (text.getD i ' ')
  left != right

/-- `re.search(rf"\b{re.escape(kw)}\b", text)`: some offset of `text`
carries the literal `kw` with a word boundary on each side. -/
def hasWordBoundaryMatch (kw text : List Char) : Bool :=
  (List.range (text.length + 1)).any fun i =>
    ((text.drop i).take kw.length == kw) && boundaryAt text i && boundaryAt text (i + kw.length)

/-- Python's substring test `needle in hay`. -/
def containsSub (needle hay : List Char) : Bool :=
  (List.range (hay.length + 1)).any fun i =>
    (hay.drop i).take needle.length == needle

/-- The inner keyword loop of `categorize_article`: short keywords (≤ 3
chars) add 2 on a word-boundary match, longer ones add 1 on a substring
match (`text` is already lowercased; `re.IGNORECASE` therefore amounts to
lowering the keyword). -/
def category_score (kws : List String) (text : List Char) : Nat :=
  kws.foldl
    (fun s kw =>
      if kw.length ≤ 3 then
        if hasWordBoundaryMatch (pyLower kw.data) text then s + 2 else s
      else
        if containsSub (pyLower kw.data) text then s + 1 else s)
    0

/-- The points a single keyword contributes to a category's score. -/
def keyword_points (text : List Char) (kw : String) : Nat :=
  if kw.length ≤ 3 then
    if hasWordBoundaryMatch (pyLower kw.data) text then 2 else 0
  else
    if containsSub (pyLower kw.data) text then 1 else 0

/-- The `for cat, info in CATEGORIES.items()` loop of `categorize_article`,
threading the `(best_cat, best_score)` pair; updates only on a strictly
larger score. -/
def bestCategory (text : List Char) : String × Nat → Taxonomy → String × Nat
  | best, [] => best
  | best, c :: rest =>
      let s := category_score c.2 text
      bestCategory text (if best.2 < s then (c.1, s) else best) rest

/-- Embeds `categorize_article` (taxonomy and default key are parameters standing
for the absent `config.py` constants). -/
def categorize_article (tax : Taxonomy) (dflt : String) (a : Article) : String :=
  (bestCategory (_build_text a) (dflt, 0) tax).1

/-- Embeds `categorize_articles`: writes `categorize_article` into each article's
`category` field (the in-place loop is modelled by returning the updated
list). -/
def categorize_articles (tax : Taxonomy) (dflt : String) (articles : List Article) : List Article :=
  articles.map fun a => { a with category := categorize_article tax dflt a }

/-! ### Curator constants (`src/scraper/curator.py`) -/

/-- The `CATEGORY_EMOJI` table. -/
def CATEGORY_EMOJI : List (String × String) :=
  [("ai", "🤖"), ("web", "🌐"), ("devops", "☁️"), ("languages", "💻"),
   ("frameworks", "🧩"), ("security", "🔒"), ("career", "🚀"), ("general", "📌")]

/-- Embeds `CATEGORY_EMOJI.get(cat, "📌")`. -/
def emojiFor (cat : String) : String :=
  ((CATEGORY_EMOJI.find? fun p => p.1 == cat).map Prod.snd).getD "📌"

/-- Python `str.title()` over a character run: an alphabetic character is
uppercased after a non-alphabetic one and lowercased otherwise. -/
def pyTitleAux : Bool → List Char → List Char
  | _, [] => []
  | prevAlpha, c :: rest =>
      (if c.isAlpha then (if prevAlpha then c.toLower else c.toUpper) else c)
        :: pyTitleAux c.isAlpha rest

/-- Python `str.title()`. -/
def pyTitle (s : String) : String :=
  ⟨pyTitleAux false s.data⟩

/-- The `_CAT_LABELS` table: category key → (English label, Portuguese label). -/
def _CAT_LABELS : List (String × (String × String)) :=
  [("ai", ("AI & Machine Learning", "IA & Machine Learning")),
   ("web", ("Web Development", "Desenvolvimento Web")),
   ("devops", ("DevOps & Cloud", "DevOps & Nuvem")),
   ("languages", ("Programming Languages", "Linguagens de Programação")),
   ("frameworks", ("Frameworks & Tools", "Frameworks & Ferramentas")),
   ("security", ("Security", "Segurança")),
   ("career", ("Career & Community", "Carreira & Comunidade")),
   ("general", ("General Tech", "Tecnologia em Geral"))]

/-- Embeds `_CAT_LABELS.get(cat, (cat.title(), cat.title()))`. -/
def catLabels (cat : String) : String × String :=
  ((_CAT_LABELS.find? fun p => p.1 == cat).map Prod.snd).getD (pyTitle cat, pyTitle cat)

/-- The canonical category display order `_CAT_ORDER`. -/
def _CAT_ORDER : List String :=
  ["ai", "web", "devops", "languages", "frameworks", "security", "career", "general"]

/-! ### Fallback synthesizer (`_fallback_digest`) -/

/-- Insert `','` after every third character (used on the reversed digit
run of Python's `f"{n:,}"` thousands formatting). -/
def commasEvery3 : List Char → List Char
  | a :: b :: c :: d :: rest => a :: b :: c :: ',' :: commasEvery3 (d :: rest)
  | l => l
termination_by l => l.length

/-- Python `f"{n:,}"` for an `int`. -/
def pyCommaInt (n : Int) : String :=
  (if n < 0 then "-" else "") ++ ⟨(commasEvery3 (Nat.toDigits 10 n.natAbs).reverse).reverse⟩

/-- Python `str.replace("_", " ")`. -/
def underscoreToSpace (s : String) : String :=
  ⟨s.data.map fun c => if c == '_' then ' ' else c⟩

/-- A `{title, url, source}` reference of a digest entry's `sources` list. -/
structure SourceRef where
  title : String
  url : String
  source : String
deriving DecidableEq, Inhabited

/-- A digest entry as produced by `create_digest` and `_fallback_digest`. -/
structure Entry where
  title_en : String
  title_pt : String
  body_en : String
  body_pt : String
  category : String
  emoji : String
  sources : List SourceRef
deriving DecidableEq, Inhabited

/-- Stable insertion of `a` into a score-descending list: `a` passes over
strictly higher scores and stops in front of the first element whose score
is not larger (so equal-score elements already present stay in front only
if they came first). -/
def insortDesc (a : Article) : List Article → List Article
  | [] => [a]
  | b :: t => if a.score < b.score then b :: insortDesc a t else a :: b :: t

/-- Embeds `by_cat[cat].sort(key=lambda a: a.score, reverse=True)`: Python's
stable sort by score descending (the unique score-descending reordering
that keeps equal-score elements in input order). -/
def sortByScoreDesc : List Article → List Article
  | [] => []
  | a :: t => insortDesc a (sortByScoreDesc t)

/-- The `picks` list of `_fallback_digest`: for each category in
`_CAT_ORDER`, the top `perCat` (= `FALLBACK_PER_CAT`, a constant of the
absent `config.py`, passed as a parameter) articles of that category by
descending score.  `by_cat` groups by the `category` field preserving
input order, so the group of `cat` is `articles.filter (·.category == cat)`. -/
def fallback_picks (perCat : Nat) (articles : List Article) : List Article :=
  _CAT_ORDER.flatMap fun cat =>
    (sortByScoreDesc (articles.filter fun a => a.category == cat)).take perCat

/-- The entry `_fallback_digest` synthesizes for one picked article
(the body of its `for a in picks` loop, translated field by field). -/
def fallback_entry (a : Article) : Entry :=
  let cat := a.category
  let labels := catLabels cat
  let emoji := emojiFor cat
  let desc := pyStripS a.description
  let title := pyStripS a.title
  let tags_str :=
    if a.tags ≠ [] then String.intercalate ", " ((a.tags.take 6).map fun t => "`" ++ t ++ "`")
    else ""
  let score_str := if a.score ≠ 0 then pyCommaInt a.score else ""
  let author_str := a.author
  let source_label := pyTitle (underscoreToSpace a.source)
  let lead_en :=
    if desc ≠ "" then desc
    else "**" ++ title ++ "** caught attention in the " ++ ⟨pyLower labels.1.data⟩ ++ " space today."
  let context_parts :=
    (if tags_str ≠ "" then ["Tags: " ++ tags_str] else []) ++
    (if author_str ≠ "" then ["Author: **" ++ author_str ++ "**"] else [])
  let signal_parts :=
    (if score_str ≠ "" then ["**" ++ score_str ++ "** points"] else []) ++
    (if a.comments_count ≠ 0 then ["**" ++ toString a.comments_count ++ "** comments"] else []) ++
    ["via **" ++ source_label ++ "**"]
  let body_en :=
    String.intercalate "\n\n"
      ([lead_en] ++
       (if context_parts ≠ [] then [String.intercalate " · " context_parts] else []) ++
       ["Community buzz: " ++ String.intercalate ", " signal_parts ++
        ". Check the original source below for the full story."])
  let lead_pt :=
    if desc ≠ "" then desc
    else "**" ++ title ++ "** chamou atenção no mundo de " ++ ⟨pyLower labels.2.data⟩ ++ " hoje."
  let ctx_pt :=
    (if tags_str ≠ "" then ["Tags: " ++ tags_str] else []) ++
    (if author_str ≠ "" then ["Autor: **" ++ author_str ++ "**"] else [])
  let signal_pt :=
    (if score_str ≠ "" then ["**" ++ score_str ++ "** pontos"] else []) ++
    (if a.comments_count ≠ 0 then ["**" ++ toString a.comments_count ++ "** comentários"] else []) ++
    ["via **" ++ source_label ++ "**"]
  let body_pt :=
    String.intercalate "\n\n"
      ([lead_pt] ++
       (if ctx_pt ≠ [] then [String.intercalate " · " ctx_pt] else []) ++
       ["Repercussão: " ++ String.intercalate ", " signal_pt ++
        ". Confira a fonte original abaixo para a matéria completa."])
  { title_en := title
    title_pt := title
    body_en := body_en
    body_pt := body_pt
    category := cat
    emoji := emoji
    sources := [⟨a.title, a.url, a.source⟩] }

/-- Embeds `_fallback_digest`: one entry per picked article, in pick order. -/
def _fallback_digest (perCat : Nat) (articles : List Article) : List Entry :=
  (fallback_picks perCat articles).map fallback_entry

/-! ### Generative path (`_condense_articles`, `_parse_json`,
`_enrich_entries`, `_call_ai`, `create_digest`) -/

/-- The condensed per-article payload `_condense_articles` builds. -/
structure Condensed where
  id : Nat
  title : String
  source : String
  category : String
  desc : String
  score : Int
  tags : List String
  comments : Int
  author : String
deriving DecidableEq

/-- Embeds `_condense_articles`: description truncated to 500 characters, tags
capped at 6, index used as back-reference id (`a.description or ""` is the
identity on the always-string `description` field). -/
def _condense_articles (articles : List Article) : List Condensed :=
  articles.enum.map fun p =>
    { id := p.1
      title := p.2.title
      source := p.2.source
      category := p.2.category
      desc := ⟨p.2.description.data.take 500⟩
      score := p.2.score
      tags := p.2.tags.take 6
      comments := p.2.comments_count
      author := p.2.author }

/-- One element of a parsed entry's `source_ids` array: either a Python
`int` (as which `isinstance(sid, int)` classifies it) or any other
deserialised JSON value. -/
inductive SidVal where
  | int (n : Int)
  | other
deriving DecidableEq

/-- A deserialised response entry, as the loosely-typed `dict` the code
probes with `.get`: each expected key may be absent. -/
structure RawEntry where
  title_en : Option String := none
  title_pt : Option String := none
  body_en : Option String := none
  body_pt : Option String := none
  category : Option String := none
  source_ids : Option (List SidVal) := none
deriving DecidableEq

/-- The per-`sid` step of `_enrich_entries`: keep the reference only for
an `int` id within range of the article list. -/
def lookupRef (articles : List Article) (sid : SidVal) : Option SourceRef :=
  match sid with
  | .int n =>
      if 0 ≤ n && n < (articles.length : Int) then
        (articles[n.toNat]?).map fun a => ⟨a.title, a.url, a.source⟩
      else none
  | .other => none

/-- The entry `_enrich_entries` builds from one raw entry: missing text
fields default to `""`, the category defaults to `"general"`, the emoji
comes from `CATEGORY_EMOJI` with default glyph, and each valid
back-reference id is resolved against `articles`. -/
def _enrich_one (articles : List Article) (e : RawEntry) : Entry :=
  let cat := e.category.getD "general"
  { title_en := e.title_en.getD ""
    title_pt := e.title_pt.getD ""
    body_en := e.body_en.getD ""
    body_pt := e.body_pt.getD ""
    category := cat
    emoji := emojiFor cat
    sources := (e.source_ids.getD []).filterMap (lookupRef articles) }

/-- Embeds `_enrich_entries`: the `for entry in raw_entries` loop appends exactly
one digest dict per raw entry. -/
def _enrich_entries (raws : List RawEntry) (articles : List Article) : List Entry :=
  raws.map (_enrich_one articles)

/-- Embeds `re.sub(r"^```(?:json)?\s*\n?", "", ·)` applied to a text known to
start with three backticks (the greedy `\s*` subsumes the optional final
newline of the pattern). -/
def stripLeadingFence (t : List Char) : List Char :=
  let u := t.drop 3
  let u := if u.take 4 = "json".data then u.drop 4 else u
  u.dropWhile isSpace

/-- Embeds `re.sub(r"\n?```\s*$", "", ·)` on text without trailing whitespace:
the pattern can only match the final three backticks plus an optional
newline right before them. -/
def stripTrailingFence (u : List Char) : List Char :=
  let r := u.reverse
  if r.take 3 = "```".data then
    let r := r.drop 3
    let r := if r.take 1 = ['\n'] then r.drop 1 else r
    r.reverse
  else u

/-- The fence-stripping step of `_parse_json` on the already-stripped
text: both `re.sub` calls run only under `text.startswith("```")`. -/
def stripFences (t : List Char) : List Char :=
  if t.take 3 = "```".data then stripTrailingFence (stripLeadingFence t) else t

/-- The trailing-prose recovery of `_parse_json`: `text.rfind("]")`
truncates the text just after the last `']'`, and leaves it unchanged
when no `']'` occurs. -/
def truncAtLastBracket (t : List Char) : List Char :=
  let r := t.reverse.dropWhile fun c => c != ']'
  if r.isEmpty then t else r.reverse

/-- The text normalisation `_parse_json` performs before `json.loads`:
strip, remove markdown fences, truncate at the last `']'`. -/
def parse_json_text (raw : List Char) : List Char :=
  truncAtLastBracket (stripFences (pyStrip raw))

/-- The distinct external failure modes of the generative call that
`_call_ai` catches (`requests.exceptions.HTTPError` from
`raise_for_status`, transport errors and timeouts, and payload-shape
errors while digging out `choices[0].message.content`). -/
inductive AIFailure where
  | httpStatusError
  | transportError
  | timedOut
  | badPayload
deriving DecidableEq

/-- The behaviour of the external generative request: either one of the
caught failures, or a response whose message content is `raw`. -/
inductive AIResponse where
  | failed (f : AIFailure)
  | content (raw : List Char)

/-- Embeds `_call_ai`, with the external request modelled by `resp` and
`json.loads` (plus the list-of-dicts shape requirement) by `loads`:
`none` stands for `json.JSONDecodeError` or any shape error, both caught.
Every caught exception yields `[]`. -/
def _call_ai (loads : List Char → Option (List RawEntry)) (resp : AIResponse)
    (articles : List Article) : List Entry :=
  match resp with
  | .failed _ => []
  | .content raw =>
      match loads (parse_json_text raw) with
      | none => []
      | some raws => _enrich_entries raws articles

/-- The token environment variables tried by `_get_token`, in order. -/
def _TOKEN_VARS : List String := ["GH_MODELS_TOKEN", "GITHUB_TOKEN"]

/-- The `for var in _TOKEN_VARS` loop of `_get_token`. -/
def firstToken (env : String → Option String) : List String → String
  | [] => ""
  | v :: rest =>
      let val := pyStripS ((env v).getD "")
      if val ≠ "" then val else firstToken env rest

/-- Embeds `_get_token`: first non-empty stripped value among the known
environment variables (`env` models `os.environ`, `none` = unset). -/
def _get_token (env : String → Option String) : String :=
  firstToken env _TOKEN_VARS

/-- Embeds `create_digest`.  Parameters stand for the effects and the absent
`config.py`: `env` is the process environment, `enabled` is
`AI_CONFIG["enabled"]`, `perCat` is `AI_CONFIG["fallback_per_cat"]`,
`loads` is `json.loads`, and `resp` is the external service's behaviour. -/
def create_digest (env : String → Option String) (enabled : Bool) (perCat : Nat)
    (loads : List Char → Option (List RawEntry)) (resp : AIResponse)
    (articles : List Article) : List Entry :=
  let token := _get_token env
  if token = "" ∨ enabled = false then
    _fallback_digest perCat articles
  else
    let digest := _call_ai loads resp articles
    if digest = [] then _fallback_digest perCat articles else digest

/-! ## Theorems -/

/-- An article used in concrete witnesses. -/
def sampleArticle : Article :=
  { title := "Rust 1.80 released", url := "https://example.org/rust", source := "hacker_news",
    description := "The release adds LazyCell.", author := "ann", tags := ["rust"],
    category := "languages", score := 120, comments_count := 4 }

/-- An environment with no token variables set. -/
def emptyEnv : String → Option String := fun _ => none

/-- A `json.loads` stand-in that always fails. -/
def failLoads : List Char → Option (List RawEntry) := fun _ => none

/-- An article whose searchable text contains `"go"` only inside the word
`"algorithm"`. -/
def substringOnlyArticle : Article :=
  { title := "A new algorithm", url := "https://example.org/a", source := "devto" }

/-- An article whose searchable text contains `"go"` as a standalone word. -/
def standaloneWordArticle : Article :=
  { title := "Why Go is fast", url := "https://example.org/b", source := "devto" }

/-- An article on which the keyword `"css"` matches as a whole word. -/
def tieArticle : Article :=
  { title := "Great CSS tricks", url := "https://example.org/c", source := "devto" }

/-- The per-category block of `fallback_picks`. -/
def catBlock (perCat : Nat) (articles : List Article) (c : String) : List Article :=
  (sortByScoreDesc (articles.filter fun a => a.category == c)).take perCat

/-- Articles with an equal-score tie in `"ai"` and no `"security"` item. -/
def articleList₀ : List Article :=
  [{ title := "A1", url := "u1", source := "s", category := "ai", score := 5 },
   { title := "A2", url := "u2", source := "s", category := "ai", score := 7 },
   { title := "A3", url := "u3", source := "s", category := "ai", score := 5 },
   { title := "W1", url := "u4", source := "s", category := "web", score := 1 }]

/-- Embeds `create_digest` with the article store threaded explicitly: the
Python body contains no assignment to an article attribute or to the
list, so every return site hands back the store it received; the
categorizer's `a.category = …` loop is the only attribute write in the
pipeline (modelled in `categorize_articles`). -/
def create_digest_st (env : String → Option String) (enabled : Bool) (perCat : Nat)
    (loads : List Char → Option (List RawEntry)) (resp : AIResponse)
    (articles : List Article) : List Entry × List Article :=
  let token := _get_token env
  if token = "" ∨ enabled = false then
    (_fallback_digest perCat articles, articles)
  else
    let digest := _call_ai loads resp articles
    if digest = [] then (_fallback_digest perCat articles, articles)
    else (digest, articles)

theorem firstToken_eq_empty (env : String → Option String) :
    ∀ l : List String, (∀ v ∈ l, pyStripS ((env v).getD "") = "") → firstToken env l = "" := by
  intro l h
  induction l with
  | nil => rfl
  | cons v rest ih =>
      have hv := h v (List.mem_cons_self ..)
      simp only [firstToken, hv, ne_eq, not_true_eq_false, if_false, ite_false]
      exact ih fun w hw => h w (List.mem_cons_of_mem _ hw)

/-- C1: `create_digest` never raises for external-service failures: every
behaviour of the generative path (missing credential, transport error,
HTTP error status, timeout, malformed response, empty parsed array)
returns the fallback synthesizer's entry list instead of propagating an
exception (the embedding is a total function, so a digest list is always
returned). -/
theorem c1_external_failure_degrades_to_fallback
    (env : String → Option String) (enabled : Bool) (perCat : Nat)
    (loads : List Char → Option (List RawEntry)) (articles : List Article) :
    (∀ f : AIFailure, create_digest env enabled perCat loads (.failed f) articles
        = _fallback_digest perCat articles) ∧
    (∀ raw, loads (parse_json_text raw) = none →
        create_digest env enabled perCat loads (.content raw) articles
          = _fallback_digest perCat articles) ∧
    (∀ raw, loads (parse_json_text raw) = some [] →
        create_digest env enabled perCat loads (.content raw) articles
          = _fallback_digest perCat articles) ∧
    (_get_token env = "" → ∀ resp,
        create_digest env enabled perCat loads resp articles
          = _fallback_digest perCat articles) := by
  refine ⟨fun f => ?_, fun raw hraw => ?_, fun raw hraw => ?_, fun htok resp => ?_⟩
  · unfold create_digest
    by_cases h : _get_token env = "" ∨ enabled = false
    · simp [h]
    · simp [h, _call_ai]
  · unfold create_digest
    by_cases h : _get_token env = "" ∨ enabled = false
    · simp [h]
    · simp [h, _call_ai, hraw]
  · unfold create_digest
    by_cases h : _get_token env = "" ∨ enabled = false
    · simp [h]
    · simp [h, _call_ai, hraw, _enrich_entries]
  · unfold create_digest
    simp [htok]

theorem c1_witness :
    create_digest emptyEnv true 3 failLoads (.failed .timedOut) [sampleArticle]
        = _fallback_digest 3 [sampleArticle] ∧
      (failLoads (parse_json_text "not json".data) = none ∧
        create_digest emptyEnv true 3 failLoads (.content "not json".data) [sampleArticle]
          = _fallback_digest 3 [sampleArticle]) ∧
      (_get_token emptyEnv = "" ∧
        create_digest emptyEnv true 3 failLoads (.content "[]".data) [sampleArticle]
          = _fallback_digest 3 [sampleArticle]) :=
  ⟨(c1_external_failure_degrades_to_fallback emptyEnv true 3 failLoads [sampleArticle]).1
      .timedOut,
   ⟨rfl, (c1_external_failure_degrades_to_fallback emptyEnv true 3 failLoads
      [sampleArticle]).2.1 _ rfl⟩,
   ⟨rfl, (c1_external_failure_degrades_to_fallback emptyEnv true 3 failLoads
      [sampleArticle]).2.2.2 rfl _⟩⟩

/-- C2: when every known token environment variable is empty or unset, or
the feature is disabled, `create_digest` returns exactly the entry list
`_fallback_digest` produces on the same articles. -/
theorem c2_no_credential_equals_fallback
    (env : String → Option String) (enabled : Bool) (perCat : Nat)
    (loads : List Char → Option (List RawEntry)) (resp : AIResponse)
    (articles : List Article)
    (h : (∀ v ∈ _TOKEN_VARS, pyStripS ((env v).getD "") = "") ∨ enabled = false) :
    create_digest env enabled perCat loads resp articles
      = _fallback_digest perCat articles := by
  unfold create_digest
  rcases h with h | h
  · have : _get_token env = "" := firstToken_eq_empty env _TOKEN_VARS h
    simp [this]
  · simp [h]

theorem c2_witness :
    create_digest emptyEnv true 3 failLoads (.content "[]".data) [sampleArticle]
      = _fallback_digest 3 [sampleArticle] :=
  c2_no_credential_equals_fallback emptyEnv true 3 failLoads (.content "[]".data)
    [sampleArticle] (Or.inl (by decide))

/-- C6: every reference an enriched entry carries comes from an article
actually passed in; a `source_ids` element that is not an integer or is
out of range resolves to nothing and its removal drops only that one
reference (the entry itself survives); missing bilingual fields default
to the empty string. -/
theorem c6_enrichment_reference_invariants (raws : List RawEntry) (articles : List Article) :
    (∀ en ∈ _enrich_entries raws articles, ∀ r ∈ en.sources,
        ∃ a ∈ articles, r.title = a.title ∧ r.url = a.url ∧ r.source = a.source) ∧
    (∀ sid : SidVal, (∀ n : Int, sid = .int n → n < 0 ∨ (articles.length : Int) ≤ n) →
        lookupRef articles sid = none) ∧
    (∀ (e : RawEntry) ids₁ sid ids₂, e.source_ids = some (ids₁ ++ sid :: ids₂) →
        lookupRef articles sid = none →
        (_enrich_one articles e).sources
          = ids₁.filterMap (lookupRef articles) ++ ids₂.filterMap (lookupRef articles)) ∧
    (∀ e ∈ raws, _enrich_one articles e ∈ _enrich_entries raws articles) ∧
    (∀ e : RawEntry,
        (e.title_en = none → (_enrich_one articles e).title_en = "") ∧
        (e.title_pt = none → (_enrich_one articles e).title_pt = "") ∧
        (e.body_en = none → (_enrich_one articles e).body_en = "") ∧
        (e.body_pt = none → (_enrich_one articles e).body_pt = "")) := by
  refine ⟨?_, ?_, ?_, ?_, ?_⟩
  · intro en hen r hr
    simp only [_enrich_entries, List.mem_map] at hen
    obtain ⟨e, -, rfl⟩ := hen
    simp only [_enrich_one, List.mem_filterMap] at hr
    obtain ⟨sid, -, hsid⟩ := hr
    cases sid with
    | other => simp [lookupRef] at hsid
    | int n =>
        simp only [lookupRef] at hsid
        split at hsid
        · next hcond =>
            obtain ⟨a, ha, rfl⟩ := Option.map_eq_some'.mp hsid
            have hn : n.toNat < articles.length := by
              simp only [Bool.and_eq_true, decide_eq_true_eq] at hcond
              omega
            refine ⟨articles[n.toNat], List.getElem_mem hn, ?_, ?_, ?_⟩ <;>
              simp_all [List.getElem?_eq_getElem hn]
        · exact absurd hsid (by simp)
  · intro sid h
    cases sid with
    | other => rfl
    | int n =>
        have := h n rfl
        simp only [lookupRef, ite_eq_right_iff]
        intro hcond
        simp only [Bool.and_eq_true, decide_eq_true_eq] at hcond
        omega
  · intro e ids₁ sid ids₂ hids hnone
    simp [_enrich_one, hids, List.filterMap_append, List.filterMap_cons, hnone]
  · intro e he
    exact List.mem_map_of_mem _ he
  · intro e
    refine ⟨fun h => ?_, fun h => ?_, fun h => ?_, fun h => ?_⟩ <;>
      simp [_enrich_one, h]

theorem c6_witness :
    (lookupRef [sampleArticle] (.int 5) = none ∧ lookupRef [sampleArticle] (.int (-1)) = none) ∧
      (_enrich_one [sampleArticle]
            { category := some "ai", source_ids := some [.int 0, .int 7, .other] }).sources
        = [.int 0].filterMap (lookupRef [sampleArticle])
            ++ [.other].filterMap (lookupRef [sampleArticle]) ∧
      (_enrich_one [sampleArticle] { category := some "ai" }).title_en = "" :=
  ⟨⟨(c6_enrichment_reference_invariants [] [sampleArticle]).2.1 (.int 5)
        (fun n hn => by cases hn; right; decide),
    (c6_enrichment_reference_invariants [] [sampleArticle]).2.1 (.int (-1))
        (fun n hn => by cases hn; left; decide)⟩,
   (c6_enrichment_reference_invariants [] [sampleArticle]).2.2.1
      { category := some "ai", source_ids := some [.int 0, .int 7, .other] }
      [.int 0] (.int 7) [.other] rfl (by decide),
   ((c6_enrichment_reference_invariants [] [sampleArticle]).2.2.2.2
      { category := some "ai" }).1 rfl⟩

/-- C10: enrichment never drops an entry: the output has exactly one
entry per parsed raw entry, in order, and a raw entry whose
back-references are all invalid (or absent) is still emitted, with an
empty `sources` list. -/
theorem c10_enrichment_preserves_entries (raws : List RawEntry) (articles : List Article) :
    (_enrich_entries raws articles).length = raws.length ∧
    (∀ i (h : i < raws.length),
        (_enrich_entries raws articles).get ⟨i, by simpa [_enrich_entries] using h⟩
          = _enrich_one articles (raws.get ⟨i, h⟩)) ∧
    (∀ e ∈ raws, (∀ sid ∈ e.source_ids.getD [], lookupRef articles sid = none) →
        _enrich_one articles e ∈ _enrich_entries raws articles ∧
          (_enrich_one articles e).sources = []) := by
  refine ⟨by simp [_enrich_entries], fun i h => by simp [_enrich_entries], fun e he hall => ?_⟩
  exact ⟨List.mem_map_of_mem _ he, by
    simp only [_enrich_one]
    exact List.filterMap_eq_nil_iff.mpr hall⟩

theorem c10_witness :
    (_enrich_entries [{ category := some "ai", source_ids := some [.int 9, .other] },
        { title_en := some "t" }] [sampleArticle]).length = 2 ∧
      (_enrich_one [sampleArticle] { category := some "ai", source_ids := some [.int 9, .other] }
          ∈ _enrich_entries [{ category := some "ai", source_ids := some [.int 9, .other] },
              { title_en := some "t" }] [sampleArticle] ∧
        (_enrich_one [sampleArticle]
            { category := some "ai", source_ids := some [.int 9, .other] }).sources = []) :=
  ⟨(c10_enrichment_preserves_entries _ [sampleArticle]).1,
   (c10_enrichment_preserves_entries _ [sampleArticle]).2.2
      { category := some "ai", source_ids := some [.int 9, .other] }
      (List.mem_cons_self ..) (by decide)⟩

theorem length_insortDesc (a : Article) (l : List Article) :
    (insortDesc a l).length = l.length + 1 := by
  induction l with
  | nil => rfl
  | cons b t ih =>
      simp only [insortDesc]
      split <;> simp [ih]

theorem length_sortByScoreDesc (l : List Article) :
    (sortByScoreDesc l).length = l.length := by
  induction l with
  | nil => rfl
  | cons a t ih => simp [sortByScoreDesc, length_insortDesc, ih]

theorem mem_insortDesc {x a : Article} {l : List Article} :
    x ∈ insortDesc a l ↔ x = a ∨ x ∈ l := by
  induction l with
  | nil => simp [insortDesc]
  | cons b t ih =>
      simp only [insortDesc]
      split
      · simp only [List.mem_cons, ih]
        tauto
      · simp only [List.mem_cons]

theorem mem_sortByScoreDesc {x : Article} {l : List Article} :
    x ∈ sortByScoreDesc l ↔ x ∈ l := by
  induction l with
  | nil => simp [sortByScoreDesc]
  | cons a t ih =>
      simp only [sortByScoreDesc, mem_insortDesc, ih, List.mem_cons]

/-- C3: `_fallback_digest` yields no entry for an empty item list, and at
least one entry whenever at least one item is supplied, every item's
category is a taxonomy key (a member of the canonical order) and the
per-category cap is positive. -/
theorem c3_fallback_nonempty (perCat : Nat) (articles : List Article) :
    (_fallback_digest perCat [] = []) ∧
    (articles ≠ [] → (∀ a ∈ articles, a.category ∈ _CAT_ORDER) → 1 ≤ perCat →
      _fallback_digest perCat articles ≠ []) := by
  constructor
  · simp [_fallback_digest, fallback_picks, sortByScoreDesc]
  · intro hne hcats hcap
    obtain ⟨a, rest, rfl⟩ := List.exists_cons_of_ne_nil hne
    have hmem : a ∈ List.filter (fun x => x.category == a.category) (a :: rest) := by
      simp [List.mem_filter]
    have hfilter : List.filter (fun x => x.category == a.category) (a :: rest) ≠ [] :=
      List.ne_nil_of_mem hmem
    have hsort : sortByScoreDesc (List.filter (fun x => x.category == a.category) (a :: rest)) ≠ [] := by
      intro h
      have := length_sortByScoreDesc (List.filter (fun x => x.category == a.category) (a :: rest))
      rw [h] at this
      exact hfilter (List.eq_nil_of_length_eq_zero this.symm)
    obtain ⟨y, ys, hy⟩ := List.exists_cons_of_ne_nil hsort
    have hyin : y ∈ fallback_picks perCat (a :: rest) := by
      refine List.mem_flatMap.mpr ⟨a.category, hcats a (List.mem_cons_self ..), ?_⟩
      rw [hy]
      obtain ⟨m, rfl⟩ := Nat.exists_eq_add_of_le hcap
      simp [List.take_cons]
    intro h
    simp only [_fallback_digest, List.map_eq_nil_iff] at h
    rw [h] at hyin
    exact absurd hyin (List.not_mem_nil y)

theorem c3_witness :
    (_fallback_digest 3 [] = []) ∧ _fallback_digest 3 [sampleArticle] ≠ [] :=
  ⟨(c3_fallback_nonempty 3 []).1,
   (c3_fallback_nonempty 3 [sampleArticle]).2 (by decide) (by decide) (by decide)⟩


/-- C4: a category's score is the sum, over its keywords, of 2 for a
keyword of length ≤ 3 that occurs as a whole word (case-insensitive,
word-boundary) in the lowercased title+description+tags text, and 1 for a
longer keyword that occurs as a case-insensitive substring; in
particular, a text containing a short keyword only inside a longer word
(`"go"` in `"algorithm"`) scores 0 for it, while a standalone occurrence
gains exactly 2 points. -/
theorem c4_keyword_scoring (kws : List String) (text : List Char) :
    category_score kws text = (kws.map (keyword_points text)).sum ∧
    category_score ["go"] (_build_text substringOnlyArticle) = 0 ∧
    category_score ["go"] (_build_text standaloneWordArticle) = 2 := by
  refine ⟨?_, by decide, by decide⟩
  have key : ∀ (ks : List String) (n : Nat),
      ks.foldl
          (fun s kw =>
            if kw.length ≤ 3 then
              if hasWordBoundaryMatch (pyLower kw.data) text then s + 2 else s
            else
              if containsSub (pyLower kw.data) text then s + 1 else s)
          n
        = n + (ks.map (keyword_points text)).sum := by
    intro ks
    induction ks with
    | nil => simp
    | cons kw rest ih =>
        intro n
        simp only [List.foldl_cons, List.map_cons, List.sum_cons, keyword_points]
        by_cases h1 : kw.length ≤ 3 <;> by_cases h2 : hasWordBoundaryMatch (pyLower kw.data) text
          <;> by_cases h3 : containsSub (pyLower kw.data) text
          <;> simp [h1, h2, h3, ih] <;> omega
  simpa using key kws 0

theorem bestCategory_spec (text : List Char) :
    ∀ (tax : Taxonomy) (b : String × Nat),
      (bestCategory text b tax = b ∧ ∀ p ∈ tax, category_score p.2 text ≤ b.2) ∨
      (∃ l₁ c l₂, tax = l₁ ++ c :: l₂ ∧
        bestCategory text b tax = (c.1, category_score c.2 text) ∧
        b.2 < category_score c.2 text ∧
        (∀ p ∈ l₁, category_score p.2 text < category_score c.2 text) ∧
        (∀ p ∈ l₂, category_score p.2 text ≤ category_score c.2 text)) := by
  intro tax
  induction tax with
  | nil => exact fun b => Or.inl ⟨rfl, by simp⟩
  | cons c rest ih =>
      intro b
      by_cases hs : b.2 < category_score c.2 text
      · have hstep : bestCategory text b (c :: rest)
            = bestCategory text (c.1, category_score c.2 text) rest := by
          simp [bestCategory, hs]
        rcases ih (c.1, category_score c.2 text) with ⟨heq, hall⟩ | ⟨l₁, c', l₂, hsplit, hres, hlt, hl₁, hl₂⟩
        · refine Or.inr ⟨[], c, rest, rfl, ?_, hs, by simp, ?_⟩
          · rw [hstep, heq]
          · exact fun p hp => hall p hp
        · refine Or.inr ⟨c :: l₁, c', l₂, by rw [hsplit]; rfl, by rw [hstep, hres], ?_, ?_, hl₂⟩
          · exact lt_trans hs hlt
          · intro p hp
            rcases List.mem_cons.mp hp with rfl | hp
            · exact hlt
            · exact hl₁ p hp
      · have hstep : bestCategory text b (c :: rest) = bestCategory text b rest := by
          simp [bestCategory, hs]
        rcases ih b with ⟨heq, hall⟩ | ⟨l₁, c', l₂, hsplit, hres, hlt, hl₁, hl₂⟩
        · refine Or.inl ⟨by rw [hstep, heq], ?_⟩
          intro p hp
          rcases List.mem_cons.mp hp with rfl | hp
          · exact Nat.le_of_not_lt hs
          · exact hall p hp
        · refine Or.inr ⟨c :: l₁, c', l₂, by rw [hsplit]; rfl, by rw [hstep, hres], hlt, ?_, hl₂⟩
          intro p hp
          rcases List.mem_cons.mp hp with rfl | hp
          · exact lt_of_le_of_lt (Nat.le_of_not_lt hs) hlt
          · exact hl₁ p hp


/-- C5: `categorize_article` returns the category with the strictly
highest score, the first of the taxonomy iteration order among equal
scores, the default key when no category scores above zero, and always a
taxonomy key or the default key — never an arbitrary string.  The last
conjunct shows first-wins tie-breaking on a concrete two-way tie. -/
theorem c5_categorize_best_first_default (tax : Taxonomy) (dflt : String) (a : Article) :
    (categorize_article tax dflt a = dflt ∨
      categorize_article tax dflt a ∈ tax.map Prod.fst) ∧
    ((∀ p ∈ tax, category_score p.2 (_build_text a) = 0) →
      categorize_article tax dflt a = dflt) ∧
    ((∃ p ∈ tax, 0 < category_score p.2 (_build_text a)) →
      ∃ l₁ c l₂, tax = l₁ ++ c :: l₂ ∧
        categorize_article tax dflt a = c.1 ∧
        0 < category_score c.2 (_build_text a) ∧
        (∀ p ∈ l₁, category_score p.2 (_build_text a) < category_score c.2 (_build_text a)) ∧
        (∀ p ∈ l₂, category_score p.2 (_build_text a) ≤ category_score c.2 (_build_text a))) ∧
    categorize_article [("web", ["css"]), ("ai", ["css"])] "general" tieArticle = "web" := by
  rcases bestCategory_spec (_build_text a) tax (dflt, 0) with ⟨heq, hall⟩ | ⟨l₁, c, l₂, hsplit, hres, hlt, hl₁, hl₂⟩
  · refine ⟨Or.inl ?_, fun _ => ?_, fun hex => ?_, by decide⟩
    · simp [categorize_article, heq]
    · simp [categorize_article, heq]
    · obtain ⟨p, hp, hpos⟩ := hex
      exact absurd (hall p hp) (by omega)
  · have hr : categorize_article tax dflt a = c.1 := by
      simp [categorize_article, hres]
    refine ⟨Or.inr ?_, fun hzero => ?_, fun _ => ⟨l₁, c, l₂, hsplit, hr, hlt, hl₁, hl₂⟩, by decide⟩
    · rw [hr, hsplit]
      simp
    · have := hzero c (by rw [hsplit]; exact List.mem_append_right _ (List.mem_cons_self ..))
      omega

theorem c5_witness :
    ∃ l₁ c l₂,
      ([("languages", ["rust"]), ("ai", ["ml"])] : Taxonomy) = l₁ ++ c :: l₂ ∧
      categorize_article [("languages", ["rust"]), ("ai", ["ml"])] "general" sampleArticle = c.1 ∧
      0 < category_score c.2 (_build_text sampleArticle) ∧
      (∀ p ∈ l₁, category_score p.2 (_build_text sampleArticle)
          < category_score c.2 (_build_text sampleArticle)) ∧
      (∀ p ∈ l₂, category_score p.2 (_build_text sampleArticle)
          ≤ category_score c.2 (_build_text sampleArticle)) :=
  (c5_categorize_best_first_default [("languages", ["rust"]), ("ai", ["ml"])] "general"
      sampleArticle).2.2.1 ⟨("languages", ["rust"]), by decide, by decide⟩

theorem pyStrip_length_le (l : List Char) :
    (pyStrip l).length ≤ (l.dropWhile isSpace).length := by
  simp only [pyStrip, dropWhileRight, List.length_reverse]
  exact le_trans (List.dropWhile_sublist _).length_le (by simp)

theorem head_not_space_of_pyStrip {h : Char} {t : List Char}
    (hs : pyStrip (h :: t) = h :: t) : isSpace h = false := by
  cases hb : isSpace h with
  | false => rfl
  | true =>
      exfalso
      have h1 : (h :: t).dropWhile isSpace = t.dropWhile isSpace := by
        simp [List.dropWhile_cons, hb]
      have h2 := pyStrip_length_le (h :: t)
      rw [hs, h1] at h2
      have h3 := (List.dropWhile_sublist (l := t) isSpace).length_le
      simp only [List.length_cons] at h2
      omega

theorem rev_cons_of_getLast {A : List Char} (hne : A ≠ []) (hlast : A.getLast? = some ']') :
    ∃ s, A.reverse = ']' :: s := by
  have h1 := List.head?_reverse A
  rw [hlast] at h1
  obtain ⟨c, L, hc⟩ := List.exists_cons_of_ne_nil (l := A.reverse) (by simpa using hne)
  rw [hc] at h1
  simp only [List.head?_cons, Option.some.injEq] at h1
  exact ⟨L, by rw [hc, h1]⟩

/-- Truncation at the last `']'` recovers `A` from `A` followed by any
bracket-free tail. -/
theorem trunc_append_no_bracket {A p : List Char} (hne : A ≠ [])
    (hlast : A.getLast? = some ']') (hp : ']' ∉ p) :
    truncAtLastBracket (A ++ p) = A := by
  obtain ⟨s, hrev⟩ := rev_cons_of_getLast hne hlast
  have hdrop : (A ++ p).reverse.dropWhile (fun c => c != ']') = ']' :: s := by
    rw [List.reverse_append, List.dropWhile_append]
    have hall : p.reverse.dropWhile (fun c => c != ']') = [] := by
      rw [List.dropWhile_eq_nil_iff]
      intro x hx
      simp only [ne_eq, bne_iff_ne]
      exact fun hxe => hp (by rw [← hxe]; simpa using hx)
    rw [hall]
    simp only [List.isEmpty_nil, if_true]
    rw [hrev, List.dropWhile_cons]
    simp
  simp only [truncAtLastBracket, hdrop]
  simp only [List.isEmpty_cons, if_false, Bool.false_eq_true]
  rw [← hrev, List.reverse_reverse]

theorem trunc_self {A : List Char} (hne : A ≠ []) (hlast : A.getLast? = some ']') :
    truncAtLastBracket A = A := by
  have := trunc_append_no_bracket (p := []) hne hlast (by simp)
  simpa using this

theorem stripFences_of_head {h : Char} {t : List Char} (hh : h ≠ '`') :
    stripFences (h :: t) = h :: t := by
  have hcond : ¬((h :: t).take 3 = "```".data) := by
    intro hc
    have h2 : (h :: t).take 3 = h :: t.take 2 := by simp [List.take_succ_cons]
    rw [h2] at hc
    have h3 : h = '`' := by
      have := congrArg List.head? hc
      simpa using this
    exact hh h3
  unfold stripFences
  rw [if_neg hcond]

/-- On a text already stripped and ending in a non-space character, Python
`strip` of `text ++ tail` keeps `text` intact and right-strips `tail`. -/
theorem pyStrip_append {A p : List Char} (hA : pyStrip A = A) (hne : A ≠ [])
    (hlast : A.getLast? = some ']') :
    pyStrip (A ++ p) = A ++ dropWhileRight isSpace p := by
  obtain ⟨h, t, rfl⟩ := List.exists_cons_of_ne_nil hne
  have hh : isSpace h = false := head_not_space_of_pyStrip hA
  obtain ⟨s, hrev⟩ := rev_cons_of_getLast hne hlast
  have h1 : ((h :: t) ++ p).dropWhile isSpace = (h :: t) ++ p := by
    rw [List.cons_append, List.dropWhile_cons]
    simp [hh]
  have h2 : ((h :: t) ++ p).reverse.dropWhile isSpace
      = p.reverse.dropWhile isSpace ++ (']' :: s) := by
    rw [List.reverse_append, List.dropWhile_append]
    by_cases hc : (p.reverse.dropWhile isSpace).isEmpty
    · rw [if_pos hc, hrev, List.dropWhile_cons]
      rw [List.isEmpty_iff] at hc
      simp [hc, show isSpace ']' = false from rfl]
    · rw [if_neg hc, hrev]
  simp only [pyStrip, dropWhileRight] at *
  rw [h1, h2, List.reverse_append, ← hrev]
  simp

/-- C7: the response parser is invariant under the tolerated decorations:
for a stripped JSON array text `A` (non-empty, ending in `']'`, not
itself starting with a backtick), wrapping in markdown fences
(```` ```json … ``` ````) or appending bracket-free trailing prose leads
`json.loads` (any `loads` function) to see exactly the same text, hence
to yield the same entries as for bare `A`. -/
theorem c7_parse_tolerates_fences_and_prose
    (loads : List Char → Option (List RawEntry)) (A prose : List Char)
    (hA : pyStrip A = A) (hne : A ≠ []) (hlast : A.getLast? = some ']')
    (hhead : A.head? ≠ some '`') (hpr : ']' ∉ prose) :
    loads (parse_json_text ("```json\n".data ++ A ++ "\n```".data))
        = loads (parse_json_text A) ∧
    loads (parse_json_text (A ++ prose)) = loads (parse_json_text A) := by
  obtain ⟨h, t, rfl⟩ := List.exists_cons_of_ne_nil hne
  have hh : isSpace h = false := head_not_space_of_pyStrip hA
  have hhb : h ≠ '`' := fun hc => hhead (by simp [hc])
  have base : parse_json_text (h :: t) = h :: t := by
    unfold parse_json_text
    rw [hA, stripFences_of_head hhb, trunc_self hne hlast]
  obtain ⟨s, hrev⟩ := rev_cons_of_getLast hne hlast
  constructor
  · have hcons : "```json\n".data ++ (h :: t) ++ "\n```".data
        = '`' :: '`' :: '`' :: 'j' :: 's' :: 'o' :: 'n' :: '\n'
            :: (h :: (t ++ "\n```".data)) := by
      rw [show "```json\n".data = ['`', '`', '`', 'j', 's', 'o', 'n', '\n'] from by decide]
      simp
    have hrevF : ("```json\n".data ++ (h :: t) ++ "\n```".data).reverse
        = '`' :: '`' :: '`' :: '\n' :: ((h :: t).reverse ++ "```json\n".data.reverse) := by
      rw [List.reverse_append, List.reverse_append]
      rw [show "\n```".data.reverse = ['`', '`', '`', '\n'] from by decide]
      simp
    have hstrip : pyStrip ("```json\n".data ++ (h :: t) ++ "\n```".data)
        = "```json\n".data ++ (h :: t) ++ "\n```".data := by
      unfold pyStrip dropWhileRight
      rw [hcons, List.dropWhile_cons]
      simp only [show isSpace '`' = false from rfl, Bool.false_eq_true, if_false]
      rw [← hcons, hrevF, List.dropWhile_cons]
      simp only [show isSpace '`' = false from rfl, Bool.false_eq_true, if_false]
      rw [← hrevF, List.reverse_reverse]
    have hlead : stripLeadingFence ("```json\n".data ++ (h :: t) ++ "\n```".data)
        = (h :: t) ++ "\n```".data := by
      unfold stripLeadingFence
      rw [hcons]
      simp only [List.drop_succ_cons, List.drop_zero, List.take_succ_cons, List.take_zero]
      rw [if_pos (by decide)]
      simp only [List.drop_succ_cons, List.drop_zero, List.dropWhile_cons]
      simp only [show isSpace '\n' = true from rfl, if_true, hh, Bool.false_eq_true, if_false]
      simp
    have htrail : stripTrailingFence ((h :: t) ++ "\n```".data) = h :: t := by
      unfold stripTrailingFence
      have hr : ((h :: t) ++ "\n```".data).reverse
          = '`' :: '`' :: '`' :: '\n' :: (h :: t).reverse := by
        rw [List.reverse_append]
        rw [show "\n```".data.reverse = ['`', '`', '`', '\n'] from by decide]
        simp
      rw [hr]
      simp only [List.take_succ_cons, List.take_zero, List.drop_succ_cons, List.drop_zero]
      rw [if_pos (by decide), if_pos (by decide)]
      simp
    have hfence : stripFences ("```json\n".data ++ (h :: t) ++ "\n```".data) = h :: t := by
      unfold stripFences
      rw [if_pos (by rw [hcons]; simp [List.take_succ_cons]), hlead, htrail]
    rw [base]
    unfold parse_json_text
    rw [hstrip, hfence, trunc_self hne hlast]
  · have hstrip2 : pyStrip ((h :: t) ++ prose)
        = (h :: t) ++ dropWhileRight isSpace prose := pyStrip_append hA hne hlast
    have hmem : ']' ∉ dropWhileRight isSpace prose := by
      intro hm
      apply hpr
      simp only [dropWhileRight, List.mem_reverse] at hm
      exact List.mem_reverse.mp ((List.dropWhile_sublist _).mem hm)
    have hfence2 : stripFences ((h :: t) ++ dropWhileRight isSpace prose)
        = (h :: t) ++ dropWhileRight isSpace prose := by
      rw [List.cons_append]
      exact stripFences_of_head hhb
    rw [base]
    unfold parse_json_text
    rw [hstrip2, hfence2, trunc_append_no_bracket hne hlast hmem]

theorem c7_witness :
    pyStrip ("[1]".data) = "[1]".data ∧
      ("[1]".data ≠ [] ∧ ("[1]".data).getLast? = some ']' ∧ (']' : Char) ∉ " ok".data) ∧
      (failLoads (parse_json_text ("```json\n".data ++ "[1]".data ++ "\n```".data))
          = failLoads (parse_json_text "[1]".data) ∧
        failLoads (parse_json_text ("[1]".data ++ " ok".data))
          = failLoads (parse_json_text "[1]".data)) :=
  ⟨by decide, ⟨by decide, by decide, by decide⟩,
    c7_parse_tolerates_fences_and_prose failLoads "[1]".data " ok".data
      (by decide) (by decide) (by decide) (by decide) (by decide)⟩

theorem pairwise_insortDesc {a : Article} {l : List Article}
    (hl : l.Pairwise fun x y => y.score ≤ x.score) :
    (insortDesc a l).Pairwise fun x y => y.score ≤ x.score := by
  induction l with
  | nil => simp [insortDesc]
  | cons b t ih =>
      rw [List.pairwise_cons] at hl
      simp only [insortDesc]
      split
      · next hlt =>
          rw [List.pairwise_cons]
          refine ⟨fun x hx => ?_, ih hl.2⟩
          rcases mem_insortDesc.mp hx with rfl | hx
          · exact le_of_lt hlt
          · exact hl.1 x hx
      · next hge =>
          rw [List.pairwise_cons]
          refine ⟨fun x hx => ?_, List.pairwise_cons.mpr hl⟩
          rcases List.mem_cons.mp hx with rfl | hx
          · exact le_of_not_lt hge
          · exact le_trans (hl.1 x hx) (le_of_not_lt hge)

theorem pairwise_sortByScoreDesc (l : List Article) :
    (sortByScoreDesc l).Pairwise fun x y => y.score ≤ x.score := by
  induction l with
  | nil => simp [sortByScoreDesc]
  | cons a t ih => exact pairwise_insortDesc ih

/-- Stability of the modelled Python sort: a filter that pins the score
commutes with the insertion step. -/
theorem filter_insortDesc {q : Article → Bool}
    (hq : ∀ x y, q x = true → q y = true → x.score = y.score) (a : Article) (l : List Article) :
    (insortDesc a l).filter q = if q a then a :: l.filter q else l.filter q := by
  induction l with
  | nil => cases hqa : q a <;> simp [insortDesc, hqa]
  | cons b t ih =>
      simp only [insortDesc]
      split
      · next hlt =>
          by_cases hqa : q a = true
          · have hqb : q b = false := by
              cases hb : q b with
              | false => rfl
              | true => exact absurd (hq a b hqa hb) (by omega)
            simp [List.filter_cons, ih, hqa, hqb]
          · have hqa' : q a = false := by simpa using hqa
            simp only [List.filter_cons, ih, hqa', Bool.false_eq_true, if_false]
      · next hge =>
          simp only [List.filter_cons]

theorem filter_sortByScoreDesc {q : Article → Bool}
    (hq : ∀ x y, q x = true → q y = true → x.score = y.score) (l : List Article) :
    (sortByScoreDesc l).filter q = l.filter q := by
  induction l with
  | nil => rfl
  | cons a t ih =>
      simp only [sortByScoreDesc]
      rw [filter_insortDesc hq, List.filter_cons]
      split
      · next hqa => rw [ih]
      · next hqa => rw [ih]


theorem mem_catBlock_category {perCat : Nat} {articles : List Article} {c : String}
    {x : Article} (hx : x ∈ catBlock perCat articles c) : x.category = c := by
  have h1 : x ∈ sortByScoreDesc (articles.filter fun a => a.category == c) :=
    (List.take_sublist _ _).mem hx
  have h2 : x ∈ articles.filter fun a => a.category == c := mem_sortByScoreDesc.mp h1
  have := (List.mem_filter.mp h2).2
  simpa using this

theorem flatMap_catBlock_filter (perCat : Nat) (articles : List Article) (c : String) :
    ∀ cats : List String, cats.Nodup →
      (cats.flatMap (catBlock perCat articles)).filter (fun a => a.category == c)
        = if c ∈ cats then catBlock perCat articles c else [] := by
  intro cats
  induction cats with
  | nil => simp
  | cons c' rest ih =>
      intro hnd
      rw [List.nodup_cons] at hnd
      rw [List.flatMap_cons, List.filter_append, ih hnd.2]
      by_cases hc : c = c'
      · subst hc
        rw [List.filter_eq_self.mpr fun a ha => by simp [mem_catBlock_category ha]]
        rw [if_neg hnd.1, if_pos (List.mem_cons_self ..), List.append_nil]
      · rw [List.filter_eq_nil_iff.mpr fun a ha => by
            simp only [beq_iff_eq]
            rw [mem_catBlock_category ha]
            exact fun he => hc he.symm]
        rw [List.nil_append]
        by_cases hmem : c ∈ rest
        · rw [if_pos hmem, if_pos (List.mem_cons_of_mem _ hmem)]
        · rw [if_neg hmem, if_neg (by simp [hc, hmem])]

theorem picks_filter_cat (perCat : Nat) (articles : List Article) (c : String) :
    (fallback_picks perCat articles).filter (fun a => a.category == c)
      = if c ∈ _CAT_ORDER then catBlock perCat articles c else [] :=
  flatMap_catBlock_filter perCat articles c _CAT_ORDER (by decide)

/-- C8: fallback entries are the picks in order — grouped by the
canonical category order, score-descending inside a category, with stable
ties (for each category and score value the picked articles form an
initial segment, in input order, of the same-category same-score input
articles), at most `perCat` picks per category, and nothing for a
category with no items. -/
theorem c8_fallback_ordering (perCat : Nat) (articles : List Article) :
    (_fallback_digest perCat articles = (fallback_picks perCat articles).map fallback_entry) ∧
    (fallback_picks perCat articles
      = _CAT_ORDER.flatMap fun c =>
          (fallback_picks perCat articles).filter fun a => a.category == c) ∧
    (∀ c, ((fallback_picks perCat articles).filter fun a => a.category == c).Pairwise
        fun x y => y.score ≤ x.score) ∧
    (∀ c s, ∃ rest,
        (((fallback_picks perCat articles).filter fun a => a.category == c).filter
            fun a => a.score == s) ++ rest
          = (articles.filter fun a => a.category == c).filter fun a => a.score == s) ∧
    (∀ c, ((fallback_picks perCat articles).filter fun a => a.category == c).length ≤ perCat) ∧
    (∀ c, articles.filter (fun a => a.category == c) = [] →
        (fallback_picks perCat articles).filter (fun a => a.category == c) = []) := by
  refine ⟨rfl, ?_, ?_, ?_, ?_, ?_⟩
  · conv_lhs => rw [show fallback_picks perCat articles
        = _CAT_ORDER.flatMap (catBlock perCat articles) from rfl]
    refine List.flatMap_congr fun c hc => ?_
    rw [picks_filter_cat, if_pos hc]
  · intro c
    rw [picks_filter_cat]
    split
    · exact List.Pairwise.sublist (List.take_sublist _ _) (pairwise_sortByScoreDesc _)
    · exact List.Pairwise.nil
  · intro c s
    rw [picks_filter_cat]
    have hq : ∀ x y : Article, (x.score == s) = true → (y.score == s) = true →
        x.score = y.score := by
      intro x y hx hy
      rw [beq_iff_eq] at hx hy
      rw [hx, hy]
    split
    · unfold catBlock
      set M := articles.filter fun a => a.category == c with hM
      refine ⟨(List.drop perCat (sortByScoreDesc M)).filter fun a => a.score == s, ?_⟩
      rw [← List.filter_append, List.take_append_drop]
      exact filter_sortByScoreDesc hq M
    · exact ⟨_, List.nil_append _⟩
  · intro c
    rw [picks_filter_cat]
    split
    · exact List.length_take_le _ _
    · simp
  · intro c hc
    rw [picks_filter_cat]
    split
    · unfold catBlock
      rw [hc]
      simp [sortByScoreDesc]
    · rfl


theorem c8_witness :
    (articleList₀.filter (fun a => a.category == "security") = [] ∧
      (fallback_picks 2 articleList₀).filter (fun a => a.category == "security") = []) ∧
      ∃ rest,
        (((fallback_picks 2 articleList₀).filter fun a => a.category == "ai").filter
            fun a => a.score == 5) ++ rest
          = (articleList₀.filter fun a => a.category == "ai").filter fun a => a.score == 5 :=
  ⟨⟨by decide, (c8_fallback_ordering 2 articleList₀).2.2.2.2.2 "security" (by decide)⟩,
    (c8_fallback_ordering 2 articleList₀).2.2.2.1 "ai" 5⟩

/-- C9: `create_digest` leaves every supplied item unchanged — the
threaded article store after the call equals the store before it, on the
generative and the fallback path alike, and its entry list agrees with
the plain model; only `categorize_articles` writes to an item, and the
written list differs from its input in the `category` field alone. -/
theorem c9_items_unchanged (env : String → Option String) (enabled : Bool) (perCat : Nat)
    (loads : List Char → Option (List RawEntry)) (resp : AIResponse)
    (tax : Taxonomy) (dflt : String) (articles : List Article) :
    ((create_digest_st env enabled perCat loads resp articles).2 = articles) ∧
    ((create_digest_st env enabled perCat loads resp articles).1
      = create_digest env enabled perCat loads resp articles) ∧
    ((categorize_articles tax dflt articles).length = articles.length) ∧
    (∀ i (h : i < articles.length),
      ((categorize_articles tax dflt articles).get
          ⟨i, by simpa [categorize_articles] using h⟩).title = (articles.get ⟨i, h⟩).title ∧
      ((categorize_articles tax dflt articles).get
          ⟨i, by simpa [categorize_articles] using h⟩).url = (articles.get ⟨i, h⟩).url ∧
      ((categorize_articles tax dflt articles).get
          ⟨i, by simpa [categorize_articles] using h⟩).source = (articles.get ⟨i, h⟩).source ∧
      ((categorize_articles tax dflt articles).get
          ⟨i, by simpa [categorize_articles] using h⟩).description
        = (articles.get ⟨i, h⟩).description ∧
      ((categorize_articles tax dflt articles).get
          ⟨i, by simpa [categorize_articles] using h⟩).author = (articles.get ⟨i, h⟩).author ∧
      ((categorize_articles tax dflt articles).get
          ⟨i, by simpa [categorize_articles] using h⟩).tags = (articles.get ⟨i, h⟩).tags ∧
      ((categorize_articles tax dflt articles).get
          ⟨i, by simpa [categorize_articles] using h⟩).score = (articles.get ⟨i, h⟩).score ∧
      ((categorize_articles tax dflt articles).get
          ⟨i, by simpa [categorize_articles] using h⟩).comments_count
        = (articles.get ⟨i, h⟩).comments_count ∧
      ((categorize_articles tax dflt articles).get
          ⟨i, by simpa [categorize_articles] using h⟩).reading_time_min
        = (articles.get ⟨i, h⟩).reading_time_min ∧
      ((categorize_articles tax dflt articles).get
          ⟨i, by simpa [categorize_articles] using h⟩).published_at
        = (articles.get ⟨i, h⟩).published_at ∧
      ((categorize_articles tax dflt articles).get
          ⟨i, by simpa [categorize_articles] using h⟩).fetched_at
        = (articles.get ⟨i, h⟩).fetched_at ∧
      ((categorize_articles tax dflt articles).get
          ⟨i, by simpa [categorize_articles] using h⟩).language
        = (articles.get ⟨i, h⟩).language ∧
      ((categorize_articles tax dflt articles).get
          ⟨i, by simpa [categorize_articles] using h⟩).category
        = categorize_article tax dflt (articles.get ⟨i, h⟩)) := by
  refine ⟨?_, ?_, by simp [categorize_articles], ?_⟩
  · unfold create_digest_st
    dsimp only
    split
    · rfl
    · split <;> rfl
  · unfold create_digest_st create_digest
    dsimp only
    split
    · rfl
    · split <;> rfl
  · intro i h
    simp [categorize_articles, List.get_eq_getElem]

theorem c9_witness :
    (create_digest_st emptyEnv true 2 failLoads (.content "[]".data) articleList₀).2
        = articleList₀ ∧
      ((categorize_articles [("languages", ["rust"])] "general" articleList₀).get
          ⟨0, by simpa [categorize_articles] using (by decide : 0 < articleList₀.length)⟩).score
        = (articleList₀.get ⟨0, by decide⟩).score :=
  ⟨(c9_items_unchanged emptyEnv true 2 failLoads (.content "[]".data)
      [("languages", ["rust"])] "general" articleList₀).1,
   ((c9_items_unchanged emptyEnv true 2 failLoads (.content "[]".data)
      [("languages", ["rust"])] "general" articleList₀).2.2.2 0 (by decide)).2.2.2.2.2.2.1⟩

end KeepUp
